import Mathlib

/-!
Verification of the `ei` repository: a shallow embedding of the two source
files (the `ei` sweep helpers in `ei.go` and the `accessor` code generator)
together with theorems settling the specification claims.

Machine strings are Lean `String`s, Go slices are Lean `List`s with explicit
index arithmetic, Go maps are association lists whose head is the most recent
write (so `List.lookup` returns the current value), and `log.Fatal` is
modelled by `Except.error`.
-/

namespace Ei

/-- Embedding of the loop body of `Sweep` (ei.go lines 26-35).  The Go loop
`for _, x := range *xs` iterates `i` over the length the slice had on entry
(the length never changes inside the loop), reads `x := (*xs)[i]` from the
current contents, and on `x.Alive()` writes `(*xs)[j] = x` and increments `j`.
`List.set` out of range is a no-op where Go would panic; the loop only ever
writes at `j ≤ i < length`, where the two agree.  The element behaviour
`Alive()` is abstracted as the boolean function `alive`. -/
def sweepLoop {E : Type} (alive : E → Bool) (l : List E) (i j : Nat) :
    List E × Nat :=
  if h : i < l.length then
    if alive l[i] then sweepLoop alive (l.set j l[i]) (i + 1) (j + 1)
    else sweepLoop alive l (i + 1) j
  else (l, j)
termination_by l.length - i
decreasing_by
  all_goals try simp only [List.length_set]
  all_goals omega

/-- Embedding of `Sweep` (ei.go lines 26-35): run the compaction loop from
`i = 0`, `j = 0` and truncate to the final `j` (`*xs = (*xs)[:j]`). -/
def Sweep {E : Type} (alive : E → Bool) (xs : List E) : List E :=
  ((sweepLoop alive xs 0 0).1).take (sweepLoop alive xs 0 0).2

/-- Embedding of the loop body of `SweepEach` (ei.go lines 37-47).  Identical
to `sweepLoop` except that after keeping an element the callback `pred(i, x)`
is invoked; the calls are recorded in order as `(i, x)` pairs, `i` being the
range index over the original slice. -/
def sweepEachLoop {E : Type} (alive : E → Bool) (l : List E) (i j : Nat)
    (calls : List (Nat × E)) : List E × Nat × List (Nat × E) :=
  if h : i < l.length then
    if alive l[i] then
      sweepEachLoop alive (l.set j l[i]) (i + 1) (j + 1) (calls ++ [(i, l[i])])
    else sweepEachLoop alive l (i + 1) j calls
  else (l, j, calls)
termination_by l.length - i
decreasing_by
  all_goals try simp only [List.length_set]
  all_goals omega

/-- Embedding of `SweepEach` (ei.go lines 37-47): the compacted slice together
with the ordered list of `pred` invocations. -/
def SweepEach {E : Type} (alive : E → Bool) (xs : List E) :
    List E × List (Nat × E) :=
  ((sweepEachLoop alive xs 0 0 []).1.take (sweepEachLoop alive xs 0 0 []).2.1,
   (sweepEachLoop alive xs 0 0 []).2.2)

end Ei

namespace Accessor

/-- Splitting of a character list at every occurrence of `sep`; always returns
at least one (possibly empty) group, exactly like Go's `strings.Split` with a
one-character separator. -/
def splitOnCharList (sep : Char) : List Char → List (List Char)
  | [] => [[]]
  | c :: rest =>
    match splitOnCharList sep rest with
    | [] => [[]]
    | g :: gs => if c = sep then [] :: g :: gs else (c :: g) :: gs

/-- Embedding of `strings.Split` with a one-character separator. -/
def goSplit (s : String) (sep : Char) : List String :=
  (splitOnCharList sep s.data).map String.mk

/-- Embedding of `strings.TrimSpace`: drop whitespace from both ends (Go
trims by `unicode.IsSpace`; the tags of interest carry only ASCII
whitespace, where the two coincide). -/
def goTrim (s : String) : String :=
  String.mk (((s.data.dropWhile Char.isWhitespace).reverse.dropWhile
    Char.isWhitespace).reverse)

/-- Embedding of the `structField` record handed to `printAccessors`.  The
AST-level pieces are reduced to what `printAccessors` extracts from them:
`typeSpecName` and `name` as the printed identifiers, `typeSpecTypeParams` as
the ordered name lists of each parameter group (`none` models a nil
`*ast.FieldList`), `typ` as the already rendered type string (the rendering by
`types.TypeString` with the qualifier callback is an external collaborator),
and `tag` as the value of the `accessor` key of the struct tag (the
`strconv.Unquote` / `reflect.StructTag.Get` extraction is external; a field
with no tag or no `accessor` key is modelled by an empty `tag`). -/
structure StructField where
  typeSpecName : String
  typeSpecTypeParams : Option (List (List String))
  name : String
  typ : String
  tag : String
deriving DecidableEq

/-- Embedding of `printGetter`: the exact format string
`"func (x *%s) %s() %s { return x.%s }\n"`. -/
def printGetter (recv method typ field : String) : String :=
  "func (x *" ++ recv ++ ") " ++ method ++ "() " ++ typ ++
    " \x7b return x." ++ field ++ " \x7d\n"

/-- Embedding of `printSetter`: the exact format string
`"func (x *%s) %s(value %s) { x.%s = value }\n"`. -/
def printSetter (recv method typ field : String) : String :=
  "func (x *" ++ recv ++ ") " ++ method ++ "(value " ++ typ ++
    ") \x7b x." ++ field ++ " = value \x7d\n"

/-- The four marker spellings recognised by the `switch` in the method-name
loop of `printAccessors` (lines 223-232). -/
def isMarker (s : String) : Bool :=
  s == "get" || s == "set" || s == "Get" || s == "Set"

/-- Embedding of the method-name loop of `printAccessors` (lines 222-232):
`method` starts empty; marker tokens are skipped; a non-marker token is fatal
when `method` is already non-empty and otherwise becomes the new `method`. -/
def buildMethodLoop : List String → String → Except String String
  | [], method => .ok method
  | arg :: rest, method =>
    if isMarker arg then buildMethodLoop rest method
    else if method ≠ "" then
      .error "error: cannot define multiple accessor names within a tag"
    else buildMethodLoop rest arg

/-- Embedding of the default-name fallback of `printAccessors` (lines
233-240): the first character, when an ASCII lowercase letter, is shifted by
`'A' - 'a'`; any other first character is left unchanged. -/
def upperFirst (s : String) : String :=
  match s.data with
  | [] => s
  | c :: cs =>
    if 'a' ≤ c ∧ c ≤ 'z' then String.mk (Char.ofNat (c.toNat - 32) :: cs)
    else s

/-- Embedding of the receiver construction of `printAccessors` (lines
208-219): the type name, followed when a type-parameter list is present by a
bracketed run of every parameter name, each with a trailing comma. -/
def buildRecv (f : StructField) : String :=
  match f.typeSpecTypeParams with
  | none => f.typeSpecName
  | some params =>
    f.typeSpecName ++ "[" ++
      params.foldl (fun acc names => names.foldl (fun a n => a ++ n ++ ",") acc) ""
      ++ "]"

/-- Embedding of `printAccessors` (lines 192-260): trim the tag and skip the
field when it is empty, split on commas, run the method-name loop (fatal on a
second non-empty name token), default the base name to the capitalised field
name, then emit the provenance comment followed by one accessor per marker
token in tag order.  The returned string is the text appended to the
`accessors` buffer; `.error` models `log.Fatal`. -/
def printAccessors (f : StructField) : Except String String :=
  let tag := goTrim f.tag
  if tag = "" then .ok ""
  else
    let args := goSplit tag ','
    if args = [] then .ok ""
    else
      let recv := buildRecv f
      match buildMethodLoop args "" with
      | .error e => .error e
      | .ok m =>
        let method := if m = "" then upperFirst f.name else m
        let comment := "// " ++ recv ++ "." ++ f.name ++ ": " ++ tag ++ "\n"
        let body := args.foldl
          (fun acc arg =>
            if arg == "get" || arg == "Get" then
              acc ++ printGetter recv (arg ++ method) f.typ f.name
            else if arg == "set" || arg == "Set" then
              acc ++ printSetter recv (arg ++ method) f.typ f.name
            else acc) ""
        .ok (comment ++ body)

/-- Embedding of `*types.Package` as `printAccessors`' qualifier sees it:
its import path (`Path()`) and declared short identifier (`Name()`). -/
structure TypesPackage where
  path : String
  name : String
deriving DecidableEq

/-- Embedding of the `generator` state the qualifier touches: the identity of
the local package `g.pkg.Types` (pointer equality in Go, modelled by the path
of the package since `packages.Load` canonicalises packages per path), and the
two registry maps `pkgNameCounts` (key = name, value = count) and `pkgNames`
(key = path, value = chosen name), as association lists whose head is the most
recent write. -/
structure Generator where
  pkgPath : String
  pkgNameCounts : List (String × Nat)
  pkgNames : List (String × String)
deriving DecidableEq

/-- Embedding of `(*generator).qualifier` (lines 276-292): the local package
prints unqualified; a path already in `pkgNames` returns its recorded name
unchanged; otherwise the candidate is the package's own name, suffixed with
the current occurrence count when positive, after which the count is
incremented and the path→name assignment recorded. -/
def qualifier (g : Generator) (pkg : TypesPackage) : String × Generator :=
  if pkg.path = g.pkgPath then ("", g)
  else
    match g.pkgNames.lookup pkg.path with
    | some name => (name, g)
    | none =>
      let count := (g.pkgNameCounts.lookup pkg.name).getD 0
      let name := if count > 0 then pkg.name ++ toString count else pkg.name
      (name,
       { g with
         pkgNameCounts := (pkg.name, count + 1) :: g.pkgNameCounts,
         pkgNames := (pkg.path, name) :: g.pkgNames })

/-- Embedding of Go's `path.Base`: empty input gives `"."`, trailing slashes
are stripped, the suffix after the last remaining slash is returned, and an
all-slash input gives `"/"`. -/
def pathBase (p : String) : String :=
  if p = "" then "."
  else
    let q := String.mk ((p.data.reverse.dropWhile (fun c => c == '/')).reverse)
    let last := (goSplit q '/').getLastD ""
    if last = "" then "/" else last

/-- Embedding of `strconv.Quote` as used on import paths, which contain no
characters needing escapes: wrap in double quotes. -/
def goQuote (s : String) : String := "\"" ++ s ++ "\""

/-- Embedding of `strings.Contains` with a one-character needle. -/
def containsChar (s : String) (c : Char) : Bool := s.data.contains c

/-- One import line of the header loop of `generate` (lines 159-168): the
alias is blanked when it equals the path's base name, and the line is
`"\t%s %s\n"` with the alias and the quoted path. -/
def mkImportStmt (pr : String × String) : String :=
  let rename := if pr.2 = pathBase pr.1 then "" else pr.2
  "\t" ++ rename ++ " " ++ goQuote pr.1 ++ "\n"

/-- Embedding of the partition loop of `generate` (lines 157-169) over the
recorded `pkgNames` entries (the list order models the map iteration order):
paths containing a dot go to the external group, all others to the standard
group, each appended in iteration order. -/
def buildImportGroups (reg : List (String × String)) :
    List String × List String :=
  reg.foldl
    (fun acc pr =>
      if containsChar pr.1 '.' then (acc.1, acc.2 ++ [mkImportStmt pr])
      else (acc.1 ++ [mkImportStmt pr], acc.2))
    ([], [])

/-- Embedding of `sort.Strings`: the lexically sorted arrangement of the
list. -/
def sortStrings (l : List String) : List String :=
  l.insertionSort (· ≤ ·)

/-- Embedding of the header part of `generate` (lines 150-182): the generated
marker comment, the package clause, and the import block printing the sorted
standard group, one separating newline, and the sorted external group. -/
def renderHeader (pkgName : String) (reg : List (String × String)) : String :=
  "// Code generated by accessor; DO NOT EDIT.\n" ++ "\n" ++
  "package " ++ pkgName ++ "\n" ++
  "import (\n" ++
  String.join (sortStrings (buildImportGroups reg).1) ++ "\n" ++
  String.join (sortStrings (buildImportGroups reg).2) ++ ")\n"

/-- Embedding of the accessor part of `generate` (lines 112-148): the fields
are visited in source order (file order, then declaration order, then field
order, then name order - flattened here into one list) and each appends its
`printAccessors` text; the first fatal tag aborts the run. -/
def generateBody : List StructField → Except String String
  | [] => .ok ""
  | f :: rest =>
    match printAccessors f with
    | .error e => .error e
    | .ok s =>
      match generateBody rest with
      | .error e => .error e
      | .ok t => .ok (s ++ t)

/-- The complete synthesized text of a run before formatting: header (from
the registry as recorded, in map iteration order) concatenated before the
accessor bodies. -/
def generateOutput (pkgName : String) (fields : List StructField)
    (reg : List (String × String)) : Except String String :=
  match generateBody fields with
  | .error e => .error e
  | .ok body => .ok (renderHeader pkgName reg ++ body)

/-- Embedding of `(*generator).format` (lines 294-301).  The collaborator
`go/format.Source` is modelled by `fmtSource`, returning `some` formatted text
on success; on a parse failure it returns an error and nil bytes.  The code
then executes `fmt.Println(string(src))` with `src = nil` - so the diagnostic
text printed before `log.Fatalf` is the empty string, recorded here as the
`.error` payload. -/
def formatRun (fmtSource : String → Option String) (header accessors : String) :
    Except String String :=
  match fmtSource (header ++ accessors) with
  | some src => .ok src
  | none => .error ""

end Accessor

deriving instance DecidableEq for Except

namespace Ei

/-- The compaction loop turns the first `j` elements plus the still unvisited
suffix into the first `j` elements followed by the alive elements of that
suffix. -/
theorem sweepLoop_spec {E : Type} (alive : E → Bool) (l : List E) (i j : Nat)
    (hj : j ≤ i) :
    ((sweepLoop alive l i j).1).take (sweepLoop alive l i j).2
      = l.take j ++ (l.drop i).filter alive := by
  rw [sweepLoop]
  by_cases h : i < l.length
  · rw [dif_pos h]
    by_cases ha : alive l[i]
    · rw [if_pos ha]
      rw [sweepLoop_spec alive (l.set j l[i]) (i + 1) (j + 1) (by omega)]
      have hjl : j < l.length := Nat.lt_of_le_of_lt hj h
      have h1 : (l.set j l[i]).take (j + 1) = l.take j ++ [l[i]] := by
        rw [List.take_succ, List.set_take,
            List.set_eq_of_length_le (by simp [List.length_take]),
            List.getElem?_set_self (by simpa using hjl)]
        rfl
      have h2 : (l.set j l[i]).drop (i + 1) = l.drop (i + 1) :=
        List.drop_set_of_lt _ _ (by omega)
      rw [h1, h2, List.drop_eq_getElem_cons h, List.filter_cons_of_pos ha,
          List.append_assoc, List.singleton_append]
    · rw [if_neg ha]
      rw [sweepLoop_spec alive l (i + 1) j (by omega)]
      rw [List.drop_eq_getElem_cons h, List.filter_cons_of_neg ha]
  · rw [dif_neg h]
    rw [List.drop_eq_nil_of_le (by omega), List.filter_nil, List.append_nil]
termination_by l.length - i
decreasing_by
  all_goals try simp only [List.length_set]
  all_goals omega

/-- The `SweepEach` loop compacts exactly like the `Sweep` loop and records
one call per alive element of the unvisited suffix, tagged with its index in
the slice as it stood on entry. -/
theorem sweepEachLoop_spec {E : Type} (alive : E → Bool) (l : List E) (i j : Nat)
    (calls : List (Nat × E)) (hj : j ≤ i) :
    ((sweepEachLoop alive l i j calls).1).take (sweepEachLoop alive l i j calls).2.1
        = l.take j ++ (l.drop i).filter alive
    ∧ (sweepEachLoop alive l i j calls).2.2
        = calls ++ (List.enumFrom i (l.drop i)).filter (fun p => alive p.2) := by
  rw [sweepEachLoop]
  by_cases h : i < l.length
  · rw [dif_pos h]
    by_cases ha : alive l[i]
    · rw [if_pos ha]
      obtain ⟨ih1, ih2⟩ := sweepEachLoop_spec alive (l.set j l[i]) (i + 1) (j + 1)
        (calls ++ [(i, l[i])]) (by omega)
      have hjl : j < l.length := Nat.lt_of_le_of_lt hj h
      have h1 : (l.set j l[i]).take (j + 1) = l.take j ++ [l[i]] := by
        rw [List.take_succ, List.set_take,
            List.set_eq_of_length_le (by simp [List.length_take]),
            List.getElem?_set_self (by simpa using hjl)]
        rfl
      have h2 : (l.set j l[i]).drop (i + 1) = l.drop (i + 1) :=
        List.drop_set_of_lt _ _ (by omega)
      constructor
      · rw [ih1, h1, h2, List.drop_eq_getElem_cons h, List.filter_cons_of_pos ha,
            List.append_assoc, List.singleton_append]
      · rw [ih2, h2, List.drop_eq_getElem_cons h, List.enumFrom_cons]
        rw [List.filter_cons_of_pos (by simpa using ha), List.append_assoc,
            List.singleton_append]
    · rw [if_neg ha]
      obtain ⟨ih1, ih2⟩ := sweepEachLoop_spec alive l (i + 1) j calls (by omega)
      constructor
      · rw [ih1, List.drop_eq_getElem_cons h, List.filter_cons_of_neg ha]
      · rw [ih2, List.drop_eq_getElem_cons h, List.enumFrom_cons,
            List.filter_cons_of_neg (by simpa using ha)]
  · rw [dif_neg h]
    rw [List.drop_eq_nil_of_le (by omega)]
    constructor
    · rw [List.filter_nil, List.append_nil]
    · rw [List.enumFrom_nil, List.filter_nil, List.append_nil]
termination_by l.length - i
decreasing_by
  all_goals try simp only [List.length_set]
  all_goals omega

/-- The elements kept by a filter and those dropped by it partition the
list's length. -/
theorem length_filter_partition {E : Type} (p : E → Bool) (l : List E) :
    (l.filter p).length + (l.filter (fun a => !p a)).length = l.length := by
  induction l with
  | nil => rfl
  | cons a t ih =>
    cases hp : p a <;>
      simp [List.filter_cons, hp, ← ih] <;> omega

end Ei

namespace Accessor

/-- The method-name loop succeeds exactly when every non-marker token other
than the last one (with the incoming accumulator virtually prepended) is
empty. -/
theorem buildMethodLoop_isOk (args : List String) : ∀ m : String,
    (buildMethodLoop args m).isOk
      = (m :: args.filter (fun a => !isMarker a)).dropLast.all (fun a => a == "") := by
  induction args with
  | nil => intro m; rfl
  | cons a rest ih =>
    intro m
    by_cases ha : isMarker a
    · rw [buildMethodLoop, if_pos ha, ih m, List.filter_cons_of_neg (by simp [ha])]
    · rw [buildMethodLoop, if_neg ha, List.filter_cons_of_pos (by simp [ha])]
      by_cases hm : m = ""
      · subst hm
        rw [if_neg (by simp), ih a, List.dropLast_cons₂, List.all_cons]
        simp
      · rw [if_pos hm, List.dropLast_cons₂, List.all_cons]
        have hb : (m == "") = false := by simpa using hm
        rw [hb, Bool.false_and]
        rfl

/-- On the success path the method-name loop returns the last non-marker
token, the incoming accumulator standing in when there is none. -/
theorem buildMethodLoop_ok (args : List String) : ∀ m : String,
    (m :: args.filter (fun a => !isMarker a)).dropLast.all (fun a => a == "") = true →
    buildMethodLoop args m
      = .ok ((m :: args.filter (fun a => !isMarker a)).getLastD "") := by
  induction args with
  | nil => intro m _; rfl
  | cons a rest ih =>
    intro m h
    by_cases ha : isMarker a
    · rw [buildMethodLoop, if_pos ha]
      rw [List.filter_cons_of_neg (by simp [ha])] at h ⊢
      exact ih m h
    · rw [List.filter_cons_of_pos (by simp [ha])] at h ⊢
      rw [List.dropLast_cons₂, List.all_cons] at h
      have hm : m = "" := by
        rcases Bool.and_eq_true_iff.1 h with ⟨h1, _⟩
        simpa using h1
      subst hm
      rw [buildMethodLoop, if_neg ha, if_neg (by simp)]
      rw [ih a (Bool.and_eq_true_iff.1 h).2]
      simp [List.getLastD_cons]

/-- Prepending an empty token does not change whether all tokens before the
last are empty. -/
theorem cons_empty_dropLast_all (F : List String) :
    (("" :: F).dropLast.all (fun a => a == ""))
      = F.dropLast.all (fun a => a == "") := by
  cases F with
  | nil => rfl
  | cons g gs => rw [List.dropLast_cons₂, List.all_cons]; simp

/-- Splitting always yields at least one group. -/
theorem splitOnCharList_ne_nil (sep : Char) (l : List Char) :
    splitOnCharList sep l ≠ [] := by
  cases l with
  | nil => simp [splitOnCharList]
  | cons c rest =>
    rw [splitOnCharList]
    cases h : splitOnCharList sep rest with
    | nil => simp
    | cons g gs =>
      dsimp only
      split <;> simp

/-- The embedded `strings.Split` always yields at least one token. -/
theorem goSplit_ne_nil (s : String) (sep : Char) : goSplit s sep ≠ [] := by
  unfold goSplit
  simpa using splitOnCharList_ne_nil sep s.data

/-- The partition loop appends the no-dot entries' lines to the first
accumulator and the dotted entries' lines to the second, in order. -/
theorem buildImportGroups_aux (reg : List (String × String)) :
    ∀ s e : List String,
      reg.foldl
        (fun acc pr =>
          if containsChar pr.1 '.' then (acc.1, acc.2 ++ [mkImportStmt pr])
          else (acc.1 ++ [mkImportStmt pr], acc.2)) (s, e)
      = (s ++ (reg.filter (fun pr => !containsChar pr.1 '.')).map mkImportStmt,
         e ++ (reg.filter (fun pr => containsChar pr.1 '.')).map mkImportStmt) := by
  induction reg with
  | nil => intro s e; simp
  | cons pr rest ih =>
    intro s e
    by_cases h : containsChar pr.1 '.'
    · rw [List.foldl_cons]
      simp only [h, if_true]
      rw [ih]
      rw [List.filter_cons_of_neg (by simp [h]), List.filter_cons_of_pos (by simp [h])]
      simp
    · rw [List.foldl_cons]
      simp only [h, if_false, Bool.false_eq_true]
      rw [ih]
      rw [List.filter_cons_of_pos (by simp [h]), List.filter_cons_of_neg (by simp [h])]
      simp

/-- The two import groups are the no-dot entries and the dotted entries,
rendered in registry order. -/
theorem buildImportGroups_eq (reg : List (String × String)) :
    buildImportGroups reg
      = ((reg.filter (fun pr => !containsChar pr.1 '.')).map mkImportStmt,
         (reg.filter (fun pr => containsChar pr.1 '.')).map mkImportStmt) := by
  unfold buildImportGroups
  simpa using buildImportGroups_aux reg [] []

/-- The embedded `sort.Strings` yields a lexically sorted list. -/
theorem sortStrings_sorted (l : List String) :
    (sortStrings l).Sorted (· ≤ ·) :=
  List.sorted_insertionSort _ l

/-- Sorting identifies lists that are permutations of one another. -/
theorem sortStrings_eq_of_perm {l1 l2 : List String} (h : l1.Perm l2) :
    sortStrings l1 = sortStrings l2 :=
  List.eq_of_perm_of_sorted
    (((List.perm_insertionSort _ _).trans h).trans (List.perm_insertionSort _ _).symm)
    (sortStrings_sorted l1) (sortStrings_sorted l2)

end Accessor

open Ei Accessor

/-- C1 counterexample: with the tag value `get,set` the generator does not
emit `GetName`/`SetName`; the marker's own casing is kept, so the claimed
output text is not produced. -/
theorem c1_counterexample :
    printAccessors ⟨"User", none, "Name", "Widget", "get,set"⟩
      ≠ Except.ok ("// User.Name: get,set\nfunc (x *User) GetName() Widget \x7b return x.Name \x7d\nfunc (x *User) SetName(value Widget) \x7b x.Name = value \x7d\n") := by
  decide

/-- C1 (amended): for field `Name` of type `Widget` in struct `User`, tag
`get,set` emits exactly the comment `// User.Name: get,set` followed by the
pointer-receiver getter `getName` returning the field unchanged and the
setter `setName` assigning its one parameter to the field; the capitalised
method names of the claim arise from the tag `Get,Set`. -/
theorem c1_accessor_text :
    printAccessors ⟨"User", none, "Name", "Widget", "get,set"⟩
      = Except.ok ("// User.Name: get,set\nfunc (x *User) getName() Widget \x7b return x.Name \x7d\nfunc (x *User) setName(value Widget) \x7b x.Name = value \x7d\n")
    ∧ printAccessors ⟨"User", none, "Name", "Widget", "Get,Set"⟩
      = Except.ok ("// User.Name: Get,Set\nfunc (x *User) GetName() Widget \x7b return x.Name \x7d\nfunc (x *User) SetName(value Widget) \x7b x.Name = value \x7d\n") := by
  constructor <;> decide

/-- C2 counterexample: the tag `get,,` has two comma-separated tokens that
are not marker spellings (both empty), yet the field is processed
successfully - generation does not fail fatally as the claim requires. -/
theorem c2_counterexample :
    ((goSplit (goTrim "get,,") ',').filter (fun a => !isMarker a)).length = 2
    ∧ printAccessors ⟨"User", none, "Name", "Widget", "get,,"⟩
        = Except.ok "// User.Name: get,,\nfunc (x *User) getName() Widget \x7b return x.Name \x7d\n" := by
  constructor <;> decide

/-- C2 (amended): processing a field succeeds exactly when among the
non-marker tokens of its trimmed, comma-split tag every token before the
last one is empty; in particular two or more non-empty non-marker tokens are
fatal, and at most one non-marker token always succeeds. -/
theorem c2_fatal_iff (f : StructField) :
    (printAccessors f).isOk
      = ((goSplit (goTrim f.tag) ',').filter
          (fun a => !isMarker a)).dropLast.all (fun a => a == "") := by
  unfold printAccessors
  by_cases h0 : goTrim f.tag = ""
  · rw [h0]
    simp only [if_pos rfl]
    rfl
  · rw [if_neg h0, if_neg (goSplit_ne_nil _ _)]
    rw [← cons_empty_dropLast_all, ← buildMethodLoop_isOk]
    cases hb : buildMethodLoop (goSplit (goTrim f.tag) ',') "" with
    | error e => rfl
    | ok m => rfl

/-- C3: the base name is the tag's single non-marker token when one is
present and non-empty, and otherwise the field's own name with an ASCII
lowercase first character upper-cased; each marker token emits a method named
by the marker's literal text concatenated with the base, as the instances
`get,Custom` (method `getCustom`, no setter) and field `foo` with tag `Get`
(method `GetFoo`) show. -/
theorem c3_method_names :
    (∀ (args : List String) (t : String),
        args.filter (fun a => !isMarker a) = [t] → t ≠ "" →
        buildMethodLoop args "" = .ok t)
    ∧ (∀ args : List String,
        args.filter (fun a => !isMarker a) = [] →
        buildMethodLoop args "" = .ok "")
    ∧ upperFirst "foo" = "Foo"
    ∧ printAccessors ⟨"User", none, "foo", "Widget", "get,Custom"⟩
        = .ok "// User.foo: get,Custom\nfunc (x *User) getCustom() Widget \x7b return x.foo \x7d\n"
    ∧ printAccessors ⟨"User", none, "foo", "Widget", "Get"⟩
        = .ok "// User.foo: Get\nfunc (x *User) GetFoo() Widget \x7b return x.foo \x7d\n" := by
  refine ⟨?_, ?_, by decide, by decide, by decide⟩
  · intro args t hf ht
    have h := buildMethodLoop_ok args "" (by rw [hf]; simp)
    rw [hf] at h
    simpa [List.getLastD_cons] using h
  · intro args hf
    have h := buildMethodLoop_ok args "" (by rw [hf]; simp)
    rw [hf] at h
    simpa using h

/-- C3 witness: the tag tokens `get,Custom` give the explicit base name
`Custom`. -/
theorem c3_witness : buildMethodLoop ["get", "Custom"] "" = .ok "Custom" :=
  c3_method_names.1 ["get", "Custom"] "Custom" (by decide) (by decide)

/-- C4 counterexample: after two foreign packages named `util` are qualified
(getting `util` and `util1`), a third foreign package whose declared name is
literally `util1` is also assigned the short name `util1` - two distinct
paths end up with the same short name, refuting the claimed global
uniqueness. -/
theorem c4_counterexample :
    (qualifier (qualifier (qualifier ⟨"example.com/m", [], []⟩ ⟨"a/util", "util"⟩).2
        ⟨"b/util", "util"⟩).2 ⟨"c/util1", "util1"⟩).1 = "util1"
    ∧ (qualifier (qualifier ⟨"example.com/m", [], []⟩ ⟨"a/util", "util"⟩).2
        ⟨"b/util", "util"⟩).1 = "util1"
    ∧ ("b/util" : String) ≠ "c/util1" := by
  refine ⟨by decide, by decide, by decide⟩

/-- C4 (amended): the qualifier returns the empty string for the compilation
unit's own package, and when two distinct foreign paths share the same
declared package name the first keeps the bare name while the second receives
the name with the counter value appended, so the two are distinct; global
uniqueness across different declared names is however not guaranteed (a
package literally named like an already-suffixed name reuses it). -/
theorem c4_qualifier_names :
    (∀ (g : Generator) (pkg : TypesPackage), pkg.path = g.pkgPath →
        qualifier g pkg = ("", g))
    ∧ (∀ localPath p1 p2 n : String, p1 ≠ localPath → p2 ≠ localPath → p1 ≠ p2 →
        (qualifier ⟨localPath, [], []⟩ ⟨p1, n⟩).1 = n
        ∧ (qualifier (qualifier ⟨localPath, [], []⟩ ⟨p1, n⟩).2 ⟨p2, n⟩).1 = n ++ "1"
        ∧ (qualifier ⟨localPath, [], []⟩ ⟨p1, n⟩).1
            ≠ (qualifier (qualifier ⟨localPath, [], []⟩ ⟨p1, n⟩).2 ⟨p2, n⟩).1) := by
  constructor
  · intro g pkg h
    unfold qualifier
    rw [if_pos h]
  · intro localPath p1 p2 n h1 h2 h3
    have e1 : qualifier ⟨localPath, [], []⟩ ⟨p1, n⟩
        = (n, ⟨localPath, [(n, 1)], [(p1, n)]⟩) := by
      unfold qualifier
      rw [if_neg h1]
      rfl
    have e2 : qualifier (⟨localPath, [(n, 1)], [(p1, n)]⟩ : Generator) ⟨p2, n⟩
        = (n ++ "1",
           ⟨localPath, [(n, 2), (n, 1)], [(p2, n ++ "1"), (p1, n)]⟩) := by
      unfold qualifier
      rw [if_neg h2]
      have hlook : ([(p1, n)] : List (String × String)).lookup p2 = none := by
        have hb : (p2 == p1) = false := beq_eq_false_iff_ne.2 (Ne.symm h3)
        simp [List.lookup, hb]
      rw [hlook]
      simp [List.lookup, show (toString (1 : Nat)) = "1" from by decide]
    have hne : n ≠ n ++ "1" := by
      intro hc
      have h' := congrArg String.length hc
      rw [String.length_append] at h'
      have hone : ("1" : String).length = 1 := rfl
      omega
    rw [e1]
    refine ⟨rfl, ?_, ?_⟩
    · rw [e2]
    · rw [e2]
      exact hne

/-- C4 witness: two foreign `util` packages receive the distinct short names
`util` and `util1`. -/
theorem c4_witness :
    (qualifier ⟨"example.com/m", [], []⟩ ⟨"a/util", "util"⟩).1 = "util"
    ∧ (qualifier (qualifier ⟨"example.com/m", [], []⟩ ⟨"a/util", "util"⟩).2
        ⟨"b/util", "util"⟩).1 = "util" ++ "1"
    ∧ (qualifier ⟨"example.com/m", [], []⟩ ⟨"a/util", "util"⟩).1
        ≠ (qualifier (qualifier ⟨"example.com/m", [], []⟩ ⟨"a/util", "util"⟩).2
            ⟨"b/util", "util"⟩).1 :=
  c4_qualifier_names.2 "example.com/m" "a/util" "b/util" "util"
    (by decide) (by decide) (by decide)

/-- C5: qualifying a path that already has an assigned short name returns
exactly that name and leaves the generator state - both registry maps -
unchanged, whatever else has been qualified in between. -/
theorem c5_qualifier_idempotent (g : Generator) (pkg : TypesPackage) (name : String)
    (hlocal : pkg.path ≠ g.pkgPath)
    (hfound : g.pkgNames.lookup pkg.path = some name) :
    qualifier g pkg = (name, g) := by
  unfold qualifier
  rw [if_neg hlocal, hfound]

/-- C5 witness: a second lookup of `a/util` returns the recorded `util` and
the unchanged state. -/
theorem c5_witness :
    qualifier ⟨"example.com/m", [("util", 1)], [("a/util", "util")]⟩ ⟨"a/util", "util"⟩
      = ("util", ⟨"example.com/m", [("util", 1)], [("a/util", "util")]⟩) :=
  c5_qualifier_idempotent _ _ "util" (by decide) (by decide)

/-- C6: the rendered header puts every dotted recorded path's line in the
external group and every dot-free path's line in the standard group, sorts
each group lexically, prints the standard group first with one blank line
before the external group, and omits the alias from a line exactly when the
assigned short name equals the path's base name. -/
theorem c6_import_block (pkgName : String) (reg : List (String × String)) :
    renderHeader pkgName reg
      = "// Code generated by accessor; DO NOT EDIT.\n" ++ "\n" ++
        "package " ++ pkgName ++ "\n" ++
        "import (\n" ++
        String.join (sortStrings
          ((reg.filter (fun pr => !containsChar pr.1 '.')).map mkImportStmt)) ++ "\n" ++
        String.join (sortStrings
          ((reg.filter (fun pr => containsChar pr.1 '.')).map mkImportStmt)) ++ ")\n"
    ∧ (sortStrings
        ((reg.filter (fun pr => !containsChar pr.1 '.')).map mkImportStmt)).Sorted (· ≤ ·)
    ∧ (sortStrings
        ((reg.filter (fun pr => containsChar pr.1 '.')).map mkImportStmt)).Sorted (· ≤ ·)
    ∧ (∀ pr : String × String, pr.2 ≠ "" →
        (mkImportStmt pr = "\t" ++ " " ++ goQuote pr.1 ++ "\n" ↔ pr.2 = pathBase pr.1)) := by
  refine ⟨?_, sortStrings_sorted _, sortStrings_sorted _, ?_⟩
  · unfold renderHeader
    rw [buildImportGroups_eq]
  · intro pr hne
    unfold mkImportStmt
    by_cases h : pr.2 = pathBase pr.1
    · simp only [h, if_pos rfl]
      simp [h]
    · rw [if_neg h]
      simp only [h, iff_false]
      intro hc
      have h' := congrArg String.length hc
      simp only [String.length_append] at h'
      have hz : pr.2.length = 0 := by omega
      have hempty : pr.2 = "" := by
        cases hp : pr.2 with
        | mk data =>
          cases data with
          | nil => rfl
          | cons c cs => rw [hp] at hz; simp [String.length] at hz
      exact hne hempty

/-- C6 witness: for the registry entry `fmt` with short name `fmt` the alias
is omitted, the short name being the path's base name. -/
theorem c6_witness :
    mkImportStmt ("fmt", "fmt") = "\t" ++ " " ++ goQuote "fmt" ++ "\n"
      ↔ "fmt" = pathBase "fmt" :=
  (c6_import_block "main" [("fmt", "fmt")]).2.2.2 ("fmt", "fmt") (by decide)

/-- C7: the full synthesized output is a function of the package name, the
field descriptors in source order, and the set of recorded imports: any two
iteration orders of the path-to-name registry (modelled as permutations of
its association list) produce byte-identical text. -/
theorem c7_deterministic (pkgName : String) (fields : List StructField)
    (reg1 reg2 : List (String × String)) (hperm : reg1.Perm reg2) :
    generateOutput pkgName fields reg1 = generateOutput pkgName fields reg2 := by
  have hh : renderHeader pkgName reg1 = renderHeader pkgName reg2 := by
    unfold renderHeader
    rw [buildImportGroups_eq, buildImportGroups_eq]
    rw [sortStrings_eq_of_perm ((hperm.filter _).map mkImportStmt),
        sortStrings_eq_of_perm ((hperm.filter _).map mkImportStmt)]
  unfold generateOutput
  cases generateBody fields <;> simp [hh]

/-- C7 witness: swapping the two registry entries leaves the output
unchanged. -/
theorem c7_witness :
    generateOutput "main" [] [("fmt", "fmt"), ("a/x", "x")]
      = generateOutput "main" [] [("a/x", "x"), ("fmt", "fmt")] :=
  c7_deterministic "main" [] _ _ (List.Perm.swap ("a/x", "x") ("fmt", "fmt") [])

/-- C8: when the formatting collaborator rejects the synthesized text, the
diagnostic printed before the fatal exit is the empty string - the bytes
returned by the failed formatter - and not the raw synthesized text the claim
requires. -/
theorem c8_empty_diagnostic (fmtSource : String → Option String)
    (header accessors : String)
    (hfail : fmtSource (header ++ accessors) = none)
    (hne : header ++ accessors ≠ "") :
    formatRun fmtSource header accessors = .error ""
    ∧ "" ≠ header ++ accessors := by
  constructor
  · unfold formatRun
    rw [hfail]
  · exact fun h => hne h.symm

/-- C8 witness: a concrete always-failing formatter yields the empty
diagnostic for a non-empty synthesized text. -/
theorem c8_witness :
    formatRun (fun _ => none) "package x\n" "func (x *T) getA() \x7b\n" = .error ""
    ∧ "" ≠ "package x\n" ++ "func (x *T) getA() \x7b\n" :=
  c8_empty_diagnostic (fun _ => none) "package x\n" "func (x *T) getA() \x7b\n" rfl
    (by decide)

/-- C9: `Sweep` is an in-place stable filter - the resulting slice is exactly
the subsequence of the original elements on which `Alive()` is true, in their
original relative order, and the length shrinks by the number of non-alive
elements. -/
theorem c9_sweep_filter {E : Type} (alive : E → Bool) (xs : List E) :
    Sweep alive xs = xs.filter alive
    ∧ (Sweep alive xs).length
        = xs.length - (xs.filter (fun x => !alive x)).length := by
  have h := sweepLoop_spec alive xs 0 0 (Nat.le_refl 0)
  have h1 : Sweep alive xs = xs.filter alive := by
    unfold Sweep
    simpa using h
  refine ⟨h1, ?_⟩
  rw [h1]
  have := length_filter_partition alive xs
  omega

/-- C10: `SweepEach` compacts exactly as `Sweep` does and calls `pred` once
per surviving element in traversal order, passing each element's index in the
original pre-compaction slice. -/
theorem c10_sweepEach_calls {E : Type} (alive : E → Bool) (xs : List E) :
    SweepEach alive xs
      = (xs.filter alive, xs.enum.filter (fun p => alive p.2)) := by
  obtain ⟨h1, h2⟩ := sweepEachLoop_spec alive xs 0 0 [] (Nat.le_refl 0)
  unfold SweepEach
  rw [Prod.mk.injEq]
  constructor
  · simpa using h1
  · simpa [List.enum] using h2
